import Mathlib

set_option maxHeartbeats 1000000

/-!
Verification development for the `e2e-test` harness of the fhir-gateway
repository (`e2e-test/e2e.py`, `e2e-test/clients.py`).  The Python sources are
shallowly embedded: JSON values become the `Json` inductive, Python `dict.get`
and the `in` operator become explicit operations that can fail the way Python
expressions fail (`AttributeError`, `TypeError`), assertion raises become an
`Except` result, the wall clock is an explicit `Date` parameter, and the two
polling loops become fuel-indexed step functions over observation streams.
-/

/-- A calendar date, as produced by Python `datetime.date`. -/
structure Date where
  year : Nat
  month : Nat
  day : Nat
deriving DecidableEq, Repr

/-- Python `datetime.min.date()`, i.e. 0001-01-01: the sentinel returned by
`parse_date` when nothing parses. -/
def dateMin : Date := ⟨1, 1, 1⟩

/-- Gregorian leap-year rule used by Python `datetime` range validation. -/
def isLeapYear (y : Nat) : Bool :=
  (y % 4 == 0 && y % 100 != 0) || (y % 400 == 0)

/-- Number of days of a month, as validated by Python `datetime`. -/
def daysInMonth (y m : Nat) : Nat :=
  if m = 2 then (if isLeapYear y then 29 else 28)
  else if m = 4 ∨ m = 6 ∨ m = 9 ∨ m = 11 then 30
  else 31

/-- Range validity of a calendar date (what `datetime.date` accepts). -/
def isValidDate (d : Date) : Bool :=
  decide (1 ≤ d.year ∧ d.year ≤ 9999 ∧ 1 ≤ d.month ∧ d.month ≤ 12 ∧
    1 ≤ d.day ∧ d.day ≤ daysInMonth d.year d.month)

/-- Constructing a date the way `datetime` does: out-of-range components raise
`ValueError`, modelled as `none`. -/
def mkValidDate (y m d : Nat) : Option Date :=
  if 1 ≤ y ∧ y ≤ 9999 ∧ 1 ≤ m ∧ m ≤ 12 ∧ 1 ≤ d ∧ d ≤ daysInMonth y m then
    some ⟨y, m, d⟩
  else none

mutual
/-- A JSON value as loaded by Python `json.load`; `null` also stands for the
Python value `None`.  Arrays and objects are separate cons-list inductives so
that decidable equality is structurally recursive. -/
inductive Json where
  | null
  | bool (b : Bool)
  | num (n : Int)
  | str (s : String)
  | arr (elems : JsonArr)
  | obj (fields : JsonObj)
deriving DecidableEq, Repr
/-- Elements of a JSON array (a Python list). -/
inductive JsonArr where
  | nil
  | cons (head : Json) (tail : JsonArr)
deriving DecidableEq, Repr
/-- Fields of a JSON object (a Python dict). -/
inductive JsonObj where
  | nil
  | cons (key : String) (val : Json) (tail : JsonObj)
deriving DecidableEq, Repr
end

/-- Build a JSON array from a Lean list (literal helper). -/
def JsonArr.ofList : List Json → JsonArr
  | [] => .nil
  | x :: xs => .cons x (JsonArr.ofList xs)

/-- Build a JSON object from a Lean association list (literal helper). -/
def JsonObj.ofList : List (String × Json) → JsonObj
  | [] => .nil
  | (k, v) :: xs => .cons k v (JsonObj.ofList xs)

/-- Array literal helper. -/
def Json.arrOf (xs : List Json) : Json := .arr (JsonArr.ofList xs)

/-- Object literal helper. -/
def Json.objOf (kvs : List (String × Json)) : Json := .obj (JsonObj.ofList kvs)

/-- Length of a JSON array (Python `len`). -/
def JsonArr.length : JsonArr → Nat
  | .nil => 0
  | .cons _ rest => rest.length + 1

/-- Indexing into a JSON array with a default (used only under a length
guard, mirroring Python `value[i]`). -/
def JsonArr.getD : JsonArr → Nat → Json → Json
  | .nil, _, d => d
  | .cons x _, 0, _ => x
  | .cons _ rest, n + 1, d => rest.getD n d

/-- The elements of a JSON array as a Lean list. -/
def JsonArr.toList : JsonArr → List Json
  | .nil => []
  | .cons x rest => x :: rest.toList

/-- Membership of a value in a JSON array (Python `x in list`). -/
def JsonArr.containsVal : JsonArr → Json → Bool
  | .nil, _ => false
  | .cons x rest, v => if x = v then true else rest.containsVal v

/-- First value bound to a key in a JSON object, if any. -/
def JsonObj.lookupKey : JsonObj → String → Option Json
  | .nil, _ => none
  | .cons k v rest, key => if k = key then some v else rest.lookupKey key

/-- Key membership in a JSON object (Python `key in dict`). -/
def JsonObj.hasKey : JsonObj → String → Bool
  | .nil, _ => false
  | .cons k _ rest, key => if k = key then true else rest.hasKey key

/-- Whether a `Json` value is a Python string. -/
def Json.isStr : Json → Bool
  | .str _ => true
  | _ => false

/-- Whether a `Json` value is a Python dict. -/
def Json.isObj : Json → Bool
  | .obj _ => true
  | _ => false

/-- Whether `p` is a prefix of `s` (character lists). -/
def charsStartWith : List Char → List Char → Bool
  | _, [] => true
  | [], _ :: _ => false
  | c :: cs, p :: ps => c = p && charsStartWith cs ps

/-- Whether `pat` occurs inside `cs` (character lists). -/
def charsContainSub : List Char → List Char → Bool
  | [], pat => pat.isEmpty
  | c :: cs, pat => charsStartWith (c :: cs) pat || charsContainSub cs pat

/-- Substring test, modelling the Python expression `sub in s`. -/
def strContainsSub (s sub : String) : Bool :=
  charsContainSub s.toList sub.toList

/-- Characters before the first `/`, i.e. Python `s.split("/")[0]`. -/
def charsBeforeSlash : List Char → List Char
  | [] => []
  | c :: rest => if c = '/' then [] else c :: charsBeforeSlash rest

/-- Python-level failures surfaced by the test harness: `AssertionError`
raises are distinguished by which `raise` produced them, and attribute /
type / name errors model the non-assertion crashes the code can hit. -/
inductive PyErr where
  | attributeError
  | typeError
  | nameError
  | fieldMismatch (field : String)
  | compartmentMismatch
  | missingVersionId
  | malformedFixture
  | auditCountMismatch
  | convergenceTimeout
deriving DecidableEq, Repr

/-- Python `value.get(key)` on an arbitrary value: returns the bound value
(or `None` for a missing key) on a dict, and raises `AttributeError` on
anything else. -/
def pyGet (v : Json) (k : String) : Except PyErr Json :=
  match v with
  | .obj o => .ok ((o.lookupKey k).getD .null)
  | _ => .error .attributeError

/-- Python `value.get(key, default)` on an arbitrary value. -/
def pyGetD (v : Json) (k : String) (d : Json) : Except PyErr Json :=
  match v with
  | .obj o => .ok ((o.lookupKey k).getD d)
  | _ => .error .attributeError

/-- Python `key in value`: key membership on dicts, element membership on
lists, substring on strings, `TypeError` on the remaining types. -/
def pyContainsKey (v : Json) (k : String) : Except PyErr Bool :=
  match v with
  | .obj o => .ok (o.hasKey k)
  | .arr xs => .ok (xs.containsVal (.str k))
  | .str s => .ok (strContainsSub s k)
  | _ => .error .typeError

/-- Take up to `maxLen` leading decimal digits from a character list. -/
def takeDigits : Nat → List Char → List Char × List Char
  | 0, cs => ([], cs)
  | _ + 1, [] => ([], [])
  | n + 1, c :: rest =>
    if c.isDigit then
      let (ds, r) := takeDigits n rest
      (c :: ds, r)
    else ([], c :: rest)

/-- Numeric value of a digit string. -/
def digitsToNat (ds : List Char) : Nat :=
  ds.foldl (fun acc c => acc * 10 + (c.toNat - 48)) 0

/-- Read between `minLen` and `maxLen` digits (greedy), as `strptime` numeric
directives do. -/
def readNum (minLen maxLen : Nat) (cs : List Char) : Option (Nat × List Char) :=
  let (ds, rest) := takeDigits maxLen cs
  if minLen ≤ ds.length then some (digitsToNat ds, rest) else none

/-- Read exactly `len` digits, as the fixed-width fields of
`datetime.fromisoformat` require. -/
def lexFixedNum (len : Nat) (cs : List Char) : Option (Nat × List Char) :=
  let (ds, rest) := takeDigits len cs
  if ds.length = len then some (digitsToNat ds, rest) else none

/-- Consume one expected literal character. -/
def expectChar (c : Char) : List Char → Option (List Char)
  | x :: rest => if x = c then some rest else none
  | [] => none

/-- Lex the `%Y-%m-%d` part of the `strptime` format strings of
`clients.parse_date` (year 1-4 digits, month and day 1-2 digits, as the
`strptime` directives accept). -/
def lexDatePart (cs : List Char) : Option (Nat × Nat × Nat × List Char) := do
  let (y, cs) ← readNum 1 4 cs
  let cs ← expectChar '-' cs
  let (m, cs) ← readNum 1 2 cs
  let cs ← expectChar '-' cs
  let (d, cs) ← readNum 1 2 cs
  some (y, m, d, cs)

/-- Lex and range-check a `%H:%M:%S` time-of-day part. -/
def lexTimeHMS (cs : List Char) : Option (List Char) := do
  let (h, cs) ← readNum 1 2 cs
  let cs ← expectChar ':' cs
  let (mi, cs) ← readNum 1 2 cs
  let cs ← expectChar ':' cs
  let (s, cs) ← readNum 1 2 cs
  if h ≤ 23 ∧ mi ≤ 59 ∧ s ≤ 61 then some cs else none

/-- Lex a whole string against format `%Y-%m-%d`. -/
def lexStrptimeDay (s : String) : Option (Nat × Nat × Nat) := do
  let (y, m, d, cs) ← lexDatePart s.toList
  if cs.isEmpty then some (y, m, d) else none

/-- Lex a whole string against format `%Y-%m-%dT%H:%M:%S`. -/
def lexStrptimeSec (s : String) : Option (Nat × Nat × Nat) := do
  let (y, m, d, cs) ← lexDatePart s.toList
  let cs ← expectChar 'T' cs
  let cs ← lexTimeHMS cs
  if cs.isEmpty then some (y, m, d) else none

/-- Lex a whole string against format `%Y-%m-%dT%H:%M:%S.%f`. -/
def lexStrptimeMicro (s : String) : Option (Nat × Nat × Nat) := do
  let (y, m, d, cs) ← lexDatePart s.toList
  let cs ← expectChar 'T' cs
  let cs ← lexTimeHMS cs
  let cs ← expectChar '.' cs
  let (_f, cs) ← readNum 1 6 cs
  if cs.isEmpty then some (y, m, d) else none

/-- Models the time part accepted by stdlib `datetime.fromisoformat`:
`HH[:MM[:SS[.fff[fff]]]]`, fixed-width fields. -/
def lexIsoTimeCore (cs : List Char) : Option (List Char) := do
  let (h, cs) ← lexFixedNum 2 cs
  if 23 < h then none
  else
    match cs with
    | [] => some []
    | ':' :: cs => do
      let (mi, cs) ← lexFixedNum 2 cs
      if 59 < mi then none
      else
        match cs with
        | [] => some []
        | ':' :: cs => do
          let (sec, cs) ← lexFixedNum 2 cs
          if 59 < sec then none
          else
            match cs with
            | [] => some []
            | '.' :: cs =>
              let (ds, rest) := takeDigits 6 cs
              if ds.length = 3 ∨ ds.length = 6 then some rest else none
            | rest => some rest
        | rest => some rest
    | rest => some rest

/-- Models the full stdlib `datetime.fromisoformat` time-of-day part with an
optional UTC-offset suffix. -/
def lexIsoTime (cs : List Char) : Option Unit := do
  let cs ← lexIsoTimeCore cs
  match cs with
  | [] => some ()
  | c :: rest =>
    if c = '+' ∨ c = '-' then do
      let rest ← lexIsoTimeCore rest
      if rest.isEmpty then some () else none
    else none

/-- Lex a whole string against the grammar of stdlib `datetime.fromisoformat`
(`YYYY-MM-DD`, optionally a one-character separator and a time part). -/
def lexIsoDate (s : String) : Option (Nat × Nat × Nat) := do
  let cs := s.toList
  let (y, cs) ← lexFixedNum 4 cs
  let cs ← expectChar '-' cs
  let (m, cs) ← lexFixedNum 2 cs
  let cs ← expectChar '-' cs
  let (d, cs) ← lexFixedNum 2 cs
  match cs with
  | [] => some (y, m, d)
  | _sep :: rest => do
    let _ ← lexIsoTime rest
    some (y, m, d)

/-- Calendar-date result of one parse attempt: lexing then the `datetime`
range validation, `none` modelling the `ValueError` the attempt raises. -/
def parseAttempt (lexed : Option (Nat × Nat × Nat)) : Option Date :=
  lexed.bind fun t => mkValidDate t.1 t.2.1 t.2.2

/-- Models stdlib `datetime.fromisoformat(s).date()`. -/
def pyFromIsoFormat (s : String) : Option Date := parseAttempt (lexIsoDate s)

/-- Models `datetime.strptime(s, "%Y-%m-%dT%H:%M:%S.%f").date()`. -/
def strptimeMicro (s : String) : Option Date := parseAttempt (lexStrptimeMicro s)

/-- Models `datetime.strptime(s, "%Y-%m-%dT%H:%M:%S").date()`. -/
def strptimeSec (s : String) : Option Date := parseAttempt (lexStrptimeSec s)

/-- Models `datetime.strptime(s, "%Y-%m-%d").date()`. -/
def strptimeDay (s : String) : Option Date := parseAttempt (lexStrptimeDay s)

/-- Embedding of `clients.parse_date`: non-strings yield
`datetime.min.date()`; otherwise `fromisoformat` is tried, then the three
`strptime` formats in order, every failure being caught; if nothing parses
the sentinel minimum date is returned. -/
def parse_date (v : Json) : Date :=
  match v with
  | .str s =>
    match pyFromIsoFormat s with
    | some d => d
    | none =>
      match strptimeMicro s with
      | some d => d
      | none =>
        match strptimeSec s with
        | some d => d
        | none =>
          match strptimeDay s with
          | some d => d
          | none => dateMin
  | _ => dateMin

/-- Modelled from the spec: `extract_date_only` is imported from `clients`
in `e2e.py` but no definition of it exists in the repository sources (only
`parse_date` does).  Spec sections 4.1 and 4.3 say the `recorded` and
`period.end` values are normalized to calendar-date granularity by the date
normalizer, so it is modelled as the normalizer `parse_date`. -/
def extract_date_only (v : Json) : Date := parse_date v

example : parse_date (Json.str "2024-01-05T10:00:00") = ⟨2024, 1, 5⟩ := by decide
example : parse_date (Json.str "2024-01-05") = ⟨2024, 1, 5⟩ := by decide
example : parse_date (Json.str "2024-01-05T10:00:00.123456") = ⟨2024, 1, 5⟩ := by decide
example : parse_date (Json.str "2024-13-05") = dateMin := by decide
example : parse_date (Json.str "") = dateMin := by decide
example : parse_date Json.null = dateMin := by decide

/-- The fixed field list scanned by `_assert_audit_events`, in document
order. -/
def verificationFields : List String :=
  ["action", "subtype", "outcome", "agent", "entity", "source", "recorded", "period"]

/-- Decidable equality for `Except` results, for evaluating the embedded
checks on concrete inputs. -/
instance exceptDecEq {ε α : Type} [DecidableEq ε] [DecidableEq α] :
    DecidableEq (Except ε α) := fun a b =>
  match a, b with
  | .ok x, .ok y =>
    if h : x = y then isTrue (by rw [h]) else isFalse (by simp [h])
  | .error x, .error y =>
    if h : x = y then isTrue (by rw [h]) else isFalse (by simp [h])
  | .ok _, .error _ => isFalse (by simp)
  | .error _, .ok _ => isFalse (by simp)

/-- A value taking part in the final `actual_value != expected_value`
comparison of `_assert_audit_events`: either a JSON value, or a calendar
date for the `recorded` / `period` branches (spec section 4.3 compares at
calendar-date granularity against the verification-time date). -/
inductive CmpVal where
  | json (j : Json)
  | date (d : Date)
deriving DecidableEq, Repr

/-- The `agent` projection of `_assert_audit_events`:
`value[2].get("who") if isinstance(value, list) and len(value) > 2 else ""`.
Indexing a list element that is not a dict raises `AttributeError`. -/
def agentProj (v : Json) : Except PyErr Json :=
  match v with
  | .arr xs => if 2 < xs.length then pyGet (xs.getD 2 .null) "who" else .ok (.str "")
  | _ => .ok (.str "")

/-- The `entity` index projection of `_assert_audit_events`:
`value[i].get("what") if isinstance(value, list) and len(value) > i else ""`. -/
def entityWhatAt (v : Json) (i : Nat) : Except PyErr Json :=
  match v with
  | .arr xs => if i < xs.length then pyGet (xs.getD i .null) "what" else .ok (.str "")
  | _ => .ok (.str "")

/-- The reference extraction
`what.get("reference") if isinstance(what, dict) else ""`. -/
def refOfWhat (w : Json) : Json :=
  match w with
  | .obj o => (o.lookupKey "reference").getD .null
  | _ => .str ""

/-- The resource-type extraction
`ref.split("/")[0] if isinstance(ref, str) else ""`. -/
def typeHead (r : Json) : String :=
  match r with
  | .str s => String.mk (charsBeforeSlash s.toList)
  | _ => ""

/-- The composed expected-side reference at `entity[2].what.reference`,
exactly as `_assert_audit_events` computes it before its history-marker
check. -/
def entityRefAt (v : Json) (i : Nat) : Except PyErr Json :=
  match entityWhatAt v i with
  | .error err => .error err
  | .ok w => .ok (refOfWhat w)

/-- The version-marker guard of `_assert_audit_events`:
`if ref is not None and "_history" not in ref: raise AssertionError`.
A `None` reference skips the guard; Python `in` raises `TypeError` on
numbers and booleans. -/
def historyCheck (r : Json) : Except PyErr Unit :=
  match r with
  | .null => .ok ()
  | .str s => if strContainsSub s "_history" then .ok () else .error .missingVersionId
  | .arr xs => if xs.containsVal (.str "_history") then .ok () else .error .missingVersionId
  | .obj o => if o.hasKey "_history" then .ok () else .error .missingVersionId
  | _ => .error .typeError

/-- The `entity` branch of `_assert_audit_events`: the compartment-owner
check on `entity[1].what.reference` type heads, then the target-resource
projection on `entity[2].what.reference` with the version-marker guard;
the produced pair feeds the shared final comparison. -/
def checkEntity (expectedValue actualValue : Json) : Except PyErr (CmpVal × CmpVal) :=
  match entityWhatAt expectedValue 1 with
  | .error err => .error err
  | .ok expWhat1 =>
    match entityWhatAt actualValue 1 with
    | .error err => .error err
    | .ok actWhat1 =>
      if typeHead (refOfWhat expWhat1) ≠ typeHead (refOfWhat actWhat1) then
        .error .compartmentMismatch
      else
        match entityWhatAt expectedValue 2 with
        | .error err => .error err
        | .ok expWhat2 =>
          match entityWhatAt actualValue 2 with
          | .error err => .error err
          | .ok actWhat2 =>
            match historyCheck (refOfWhat expWhat2) with
            | .error err => .error err
            | .ok _ =>
              .ok (.json (.str (typeHead (refOfWhat expWhat2))),
                   .json (.str (typeHead (refOfWhat actWhat2))))

/-- The `period` extraction of `_assert_audit_events`:
`value.get("end") if isinstance(value, dict) else None`. -/
def periodEndOf (v : Json) : Json :=
  match v with
  | .obj o => (o.lookupKey "end").getD .null
  | _ => .null

/-- The per-field projection of `_assert_audit_events`: `agent`, `entity`,
`recorded` and `period` transform the raw values; every other field is
compared as-is.  For `recorded`/`period` the expected side is the
wall-clock date (`date.today()`), the actual side is normalized by
`extract_date_only` (for `period`, applied to
`value.get("end") if isinstance(value, dict) else None`). -/
def projectField (today : Date) (field : String) (expectedValue actualValue : Json) :
    Except PyErr (CmpVal × CmpVal) :=
  if field = "agent" then
    match agentProj expectedValue with
    | .error err => .error err
    | .ok e =>
      match agentProj actualValue with
      | .error err => .error err
      | .ok a => .ok (.json e, .json a)
  else if field = "entity" then checkEntity expectedValue actualValue
  else if field = "recorded" then
    .ok (.date today, .date (extract_date_only actualValue))
  else if field = "period" then
    .ok (.date today, .date (extract_date_only (periodEndOf actualValue)))
  else .ok (.json expectedValue, .json actualValue)

/-- Projection followed by the shared
`if actual_value != expected_value: raise AssertionError` comparison. -/
def checkFieldVal (today : Date) (field : String) (expectedValue actualValue : Json) :
    Except PyErr Unit :=
  match projectField today field expectedValue actualValue with
  | .error err => .error err
  | .ok pair => if pair.2 ≠ pair.1 then .error (.fieldMismatch field) else .ok ()

/-- One iteration of the field loop of `_assert_audit_events`: the
`if field in expected_audit_event` membership test, the two `.get(field)`
reads, then the field check. -/
def checkAuditField (expected : Json) (today : Date) (actual : Json) (field : String) :
    Except PyErr Unit :=
  match pyContainsKey expected field with
  | .error err => .error err
  | .ok b =>
    if b then
      match pyGet expected field with
      | .error err => .error err
      | .ok expectedValue =>
        match pyGet actual field with
        | .error err => .error err
        | .ok actualValue => checkFieldVal today field expectedValue actualValue
    else .ok ()

/-- The field loop of `_assert_audit_events`: fields scanned in order, the
first raise aborting the scan. -/
def checkFieldList (expected : Json) (today : Date) (actual : Json) :
    List String → Except PyErr Unit
  | [] => .ok ()
  | f :: rest =>
    match checkAuditField expected today actual f with
    | .error err => .error err
    | .ok _ => checkFieldList expected today actual rest

/-- Embedding of `e2e._assert_audit_events`. -/
def assert_audit_events (expected : Json) (today : Date) (actual : Json) :
    Except PyErr Unit :=
  checkFieldList expected today actual verificationFields

/-- The per-element loop of `_test_post_and_verify_audit_events`: an
expected element that is not a dict is logged and skipped; an entry whose
`resource` (default `{}`) is not a dict is logged and skipped; otherwise
`_assert_audit_events` runs. -/
def verifyPairs (today : Date) : List (Json × Json) → Except PyErr Unit
  | [] => .ok ()
  | (expectedEvent, entry) :: rest =>
    match expectedEvent with
    | .obj o =>
      match pyGetD entry "resource" (.obj .nil) with
      | .error err => .error err
      | .ok auditEvent =>
        match auditEvent with
        | .obj _ =>
          match assert_audit_events (.obj o) today auditEvent with
          | .error err => .error err
          | .ok _ => verifyPairs today rest
        | _ => verifyPairs today rest
    | _ => verifyPairs today rest

/-- The verification stage of `_test_post_and_verify_audit_events`, entered
once the audit-event count matches: the fixture must be a list, its length
must equal the number of fetched events, then the zipped pairs are
processed. -/
def verifyAuditStage (expectedData : Json) (newEvents : List Json) (today : Date) :
    Except PyErr Unit :=
  match expectedData with
  | .arr expectedElems =>
    if expectedElems.length ≠ newEvents.length then .error .auditCountMismatch
    else verifyPairs today (expectedElems.toList.zip newEvents)
  | _ => .error .malformedFixture

/-- The backend observations and fixture content that
`_test_post_and_verify_audit_events` consumes: per-iteration results of
`hapi.get_audit_events` and `hapi.get_audit_event_count`, the parsed
expected fixture file, and the wall-clock date. -/
structure PollEnv where
  counts : Nat → Nat
  events : Nat → List Json
  expectedData : Json
  today : Date

/-- The audit poll loop of `_test_post_and_verify_audit_events`
(`while waited < max_wait_seconds`), fuel-indexed.  Each executed iteration
first fetches the newest events (counted by `fetches`), then the count;
iterations run at `waited = 0, interval, 2*interval, ...`.  On the
satisfying iteration the verification stage runs and the loop returns.
After the loop the timeout `AssertionError` is raised; its message reads
`current_audit_event_count`, a `NameError` when no iteration ever ran.
Result: `(outcome, iterations executed incl. the satisfying one, fetches)`;
`none` means the fuel ran out before the loop exited. -/
def auditPollAux (env : PollEnv) (initial inc maxWait interval : Nat) :
    Nat → Nat → Nat → Nat → Option (Except PyErr Unit × Nat × Nat)
  | 0, i, waited, fetches =>
    if waited < maxWait then none
    else some (.error (if i = 0 then .nameError else .convergenceTimeout), i, fetches)
  | fuel + 1, i, waited, fetches =>
    if waited < maxWait then
      let newEvents := env.events i
      let currentCount := env.counts i
      if currentCount = initial + inc then
        some (verifyAuditStage env.expectedData newEvents env.today, i + 1, fetches + 1)
      else
        auditPollAux env initial inc maxWait interval fuel (i + 1) (waited + interval) (fetches + 1)
    else some (.error (if i = 0 then .nameError else .convergenceTimeout), i, fetches)

/-- The audit poll loop started the way the source starts it (`waited = 0`),
with fuel `maxWait`, which suffices whenever `interval ≥ 1`. -/
def auditPollRun (env : PollEnv) (initial inc maxWait interval : Nat) :
    Option (Except PyErr Unit × Nat × Nat) :=
  auditPollAux env initial inc maxWait interval maxWait 0 0 0

/-- The count poll loop of `test_post_resource_increase_count`
(`while value_from_proxy != (current_value + 1)`), fuel-indexed: `v` is the
last proxy count (initially the pre-POST baseline), `obs i` the count
fetched on iteration `i`.  The loop has no deadline; `none` means the fuel
was exhausted with the loop still running. -/
def postResourcePollAux (obs : Nat → Nat) (base : Nat) :
    Nat → Nat → Nat → Option Nat
  | 0, _, v => if v = base + 1 then some v else none
  | fuel + 1, i, v =>
    if v = base + 1 then some v
    else postResourcePollAux obs base fuel (i + 1) (obs i)

/-- Termination of the count poll loop on an observation stream: some fuel
bound makes the loop return. -/
def postPollTerminates (obs : Nat → Nat) (base : Nat) : Prop :=
  ∃ fuel, (postResourcePollAux obs base fuel 0 base).isSome

example : assert_audit_events (Json.objOf [("action", Json.str "C")]) ⟨2024, 1, 1⟩
    (Json.objOf [("action", Json.str "C")]) = .ok () := by decide
example : assert_audit_events (Json.objOf [("action", Json.str "C")]) ⟨2024, 1, 1⟩
    (Json.objOf [("action", Json.str "U")]) = .error (.fieldMismatch "action") := by decide

/-- The sentinel minimum date is a valid calendar date. -/
lemma dateMin_valid : isValidDate dateMin = true := by decide

/-- Every successful parse attempt went through the `datetime` range
validation, so it produces a valid calendar date. -/
lemma parseAttempt_valid (o : Option (Nat × Nat × Nat)) (d : Date)
    (h : parseAttempt o = some d) : isValidDate d = true := by
  cases o with
  | none => simp [parseAttempt] at h
  | some t =>
    simp only [parseAttempt, Option.some_bind] at h
    unfold mkValidDate at h
    split_ifs at h with hc
    injection h with h2
    subst h2
    simpa [isValidDate] using hc

/-- The field loop returns normally exactly when every field check passes. -/
lemma checkFieldList_ok_iff (e : Json) (t : Date) (a : Json) (fs : List String) :
    checkFieldList e t a fs = .ok () ↔
      ∀ f ∈ fs, checkAuditField e t a f = .ok () := by
  induction fs with
  | nil => simp [checkFieldList]
  | cons f rest ih =>
    simp only [checkFieldList]
    cases h : checkAuditField e t a f with
    | ok u =>
      cases u
      rw [ih]
      constructor
      · intro hall g hg
        rcases List.mem_cons.mp hg with hg | hg
        · subst hg; exact h
        · exact hall g hg
      · intro hall g hg
        exact hall g (List.mem_cons_of_mem _ hg)
    | error e2 =>
      constructor
      · intro hh; exact absurd hh (by simp)
      · intro hall
        have := hall f (List.mem_cons_self _ _)
        rw [h] at this
        exact absurd this (by simp)

/-- The field loop fails with `err` exactly when some field check fails with
`err` and all earlier field checks pass: the scan raises at the first
failing field. -/
lemma checkFieldList_error_iff (e : Json) (t : Date) (a : Json) (fs : List String)
    (err : PyErr) :
    checkFieldList e t a fs = .error err ↔
      ∃ i, i < fs.length ∧ checkAuditField e t a (fs.getD i "") = .error err ∧
        ∀ j, j < i → checkAuditField e t a (fs.getD j "") = .ok () := by
  induction fs with
  | nil => simp [checkFieldList]
  | cons f rest ih =>
    simp only [checkFieldList]
    cases h : checkAuditField e t a f with
    | ok u =>
      cases u
      rw [ih]
      constructor
      · rintro ⟨i, hi, hchk, hord⟩
        refine ⟨i + 1, by simpa using hi, by simpa using hchk, ?_⟩
        intro j hj
        cases j with
        | zero => simpa using h
        | succ k => simpa using hord k (by omega)
      · rintro ⟨i, hi, hchk, hord⟩
        cases i with
        | zero =>
          simp only [List.getD_cons_zero] at hchk
          rw [h] at hchk
          exact absurd hchk (by simp)
        | succ k =>
          exact ⟨k, by simpa using hi, by simpa using hchk,
            fun j hj => by simpa using hord (j + 1) (by omega)⟩
    | error e2 =>
      constructor
      · intro hh
        have herr : e2 = err := by
          injection hh
        subst herr
        exact ⟨0, by simp, by simpa using h, fun j hj => by omega⟩
      · rintro ⟨i, hi, hchk, hord⟩
        cases i with
        | zero =>
          simp only [List.getD_cons_zero] at hchk
          rw [h] at hchk
          injection hchk with h2
          rw [h2]
        | succ k =>
          have := hord 0 (by omega)
          simp only [List.getD_cons_zero] at this
          rw [h] at this
          exact absurd this (by simp)

/-- If a member field's check cannot pass, the whole scan cannot return
normally. -/
lemma checkFieldList_ne_ok_of_mem (e : Json) (t : Date) (a : Json)
    (fs : List String) (f : String) (hmem : f ∈ fs)
    (hne : checkAuditField e t a f ≠ .ok ()) :
    checkFieldList e t a fs ≠ .ok () := fun hok =>
  hne ((checkFieldList_ok_iff e t a fs).mp hok f hmem)

/-- The count poll loop can have returned within `fuel` iterations exactly
when the running value or some observation in range hits `base + 1`. -/
lemma postPollAux_isSome_iff (obs : Nat → Nat) (base : Nat) :
    ∀ fuel i v, (postResourcePollAux obs base fuel i v).isSome = true ↔
      (v = base + 1 ∨ ∃ j, i ≤ j ∧ j < i + fuel ∧ obs j = base + 1) := by
  intro fuel
  induction fuel with
  | zero =>
    intro i v
    simp only [postResourcePollAux]
    by_cases hv : v = base + 1
    · simp [hv]
    · simp only [hv, if_false]
      simp
      intro j h1 h2
      omega
  | succ fuel ih =>
    intro i v
    simp only [postResourcePollAux]
    by_cases hv : v = base + 1
    · simp [hv]
    · rw [if_neg hv, ih (i + 1) (obs i)]
      constructor
      · rintro (h | ⟨j, h1, h2, h3⟩)
        · exact Or.inr ⟨i, by omega, by omega, h⟩
        · exact Or.inr ⟨j, by omega, by omega, h3⟩
      · rintro (h | ⟨j, h1, h2, h3⟩)
        · exact absurd h hv
        · by_cases hj : j = i
          · subst hj; exact Or.inl h3
          · exact Or.inr ⟨j, by omega, by omega, h3⟩

/-- Ceiling-division step: one more interval of waiting remains. -/
lemma ceilDiv_pos_step (x ι : Nat) (hι : 0 < ι) (hx : 0 < x) :
    (x + ι - 1) / ι = ((x - ι) + ι - 1) / ι + 1 := by
  rcases le_or_lt ι x with hle | hlt
  · have h1 : x + ι - 1 = ((x - ι) + ι - 1) + ι := by omega
    rw [h1, Nat.add_div_right _ hι]
  · have h1 : x - ι = 0 := by omega
    have h2 : x + ι - 1 = (x - 1) + ι := by omega
    rw [h1, h2, Nat.add_div_right _ hι]
    have h3 : (x - 1) / ι = 0 := Nat.div_eq_of_lt (by omega)
    have h4 : (0 + ι - 1) / ι = 0 := Nat.div_eq_of_lt (by omega)
    rw [h3, h4]

/-- Ceiling division is zero exactly on a zero numerator. -/
lemma ceilDiv_eq_zero_iff (x ι : Nat) (hι : 0 < ι) :
    (x + ι - 1) / ι = 0 ↔ x = 0 := by
  constructor
  · intro h
    by_contra hx
    have h1 : ι ≤ x + ι - 1 := by omega
    have h2 := (Nat.one_le_div_iff hι).mpr h1
    omega
  · intro h
    subst h
    exact Nat.div_eq_of_lt (by omega)

/-- Ceiling division by a positive interval never exceeds the deadline. -/
lemma ceilDiv_le_self (d ι : Nat) (hι : 0 < ι) : (d + ι - 1) / ι ≤ d := by
  rcases Nat.eq_zero_or_pos d with h | h
  · subst h
    have : (0 + ι - 1) / ι = 0 := Nat.div_eq_of_lt (by omega)
    omega
  · have h2 : d + ι - 1 = (d - 1) + ι := by omega
    rw [h2, Nat.add_div_right _ hι]
    have h3 : (d - 1) / ι ≤ d - 1 := Nat.div_le_self _ _
    omega

/-- If no observation ever satisfies the count condition, the audit poll
loop runs one iteration per interval until the deadline and then raises on
the way out; iteration and fetch counters advance together. -/
lemma auditPollAux_timeout (env : PollEnv) (initial inc maxWait interval : Nat)
    (hι : 0 < interval) (hns : ∀ j, env.counts j ≠ initial + inc) :
    ∀ fuel i waited fetches,
      (maxWait - waited + interval - 1) / interval ≤ fuel →
      auditPollAux env initial inc maxWait interval fuel i waited fetches =
        some (.error (if i + (maxWait - waited + interval - 1) / interval = 0
                      then .nameError else .convergenceTimeout),
              i + (maxWait - waited + interval - 1) / interval,
              fetches + (maxWait - waited + interval - 1) / interval) := by
  intro fuel
  induction fuel with
  | zero =>
    intro i waited fetches hfuel
    have hr : (maxWait - waited + interval - 1) / interval = 0 := Nat.le_zero.mp hfuel
    have hw : ¬ waited < maxWait := by
      intro hlt
      have := (ceilDiv_eq_zero_iff (maxWait - waited) interval hι).mp hr
      omega
    simp [auditPollAux, hw, hr]
  | succ fuel ih =>
    intro i waited fetches hfuel
    by_cases hw : waited < maxWait
    · have hx : 0 < maxWait - waited := by omega
      have hstep := ceilDiv_pos_step (maxWait - waited) interval hι hx
      have harg : maxWait - waited - interval = maxWait - (waited + interval) := by omega
      rw [harg] at hstep
      have hfuel2 : (maxWait - (waited + interval) + interval - 1) / interval ≤ fuel := by
        rw [hstep] at hfuel
        exact Nat.succ_le_succ_iff.mp hfuel
      have hrec := ih (i + 1) (waited + interval) (fetches + 1) hfuel2
      simp only [auditPollAux, if_pos hw, if_neg (hns i)]
      rw [hrec, hstep]
      generalize (maxWait - (waited + interval) + interval - 1) / interval = r2
      have e1 : i + 1 + r2 = i + (r2 + 1) := by omega
      have e2 : fetches + 1 + r2 = fetches + (r2 + 1) := by omega
      rw [e1, e2]
    · have hr0 : maxWait - waited = 0 := by omega
      have hz : (maxWait - waited + interval - 1) / interval = 0 := by
        rw [hr0]
        exact Nat.div_eq_of_lt (by omega)
      simp [auditPollAux, hw, hz]

/-- If the count condition first holds on iteration `n`, still inside the
deadline, the audit poll loop performs one fetch on each of the `n + 1`
iterations it executes and returns the verification outcome computed from
the events fetched on iteration `n`. -/
lemma auditPollAux_first_sat (env : PollEnv) (initial inc maxWait interval : Nat) :
    ∀ k fuel i waited fetches,
      (∀ j, j < k → env.counts (i + j) ≠ initial + inc) →
      env.counts (i + k) = initial + inc →
      waited + k * interval < maxWait →
      k + 1 ≤ fuel →
      auditPollAux env initial inc maxWait interval fuel i waited fetches =
        some (verifyAuditStage env.expectedData (env.events (i + k)) env.today,
              i + k + 1, fetches + k + 1) := by
  intro k
  induction k with
  | zero =>
    intro fuel i waited fetches hbefore hsat hlt hfuel
    obtain ⟨fuel, rfl⟩ : ∃ f, fuel = f + 1 := ⟨fuel - 1, by omega⟩
    have hw : waited < maxWait := by omega
    have hsat0 : env.counts i = initial + inc := by simpa using hsat
    simp [auditPollAux, hw, hsat0]
  | succ k ih =>
    intro fuel i waited fetches hbefore hsat hlt hfuel
    obtain ⟨fuel, rfl⟩ : ∃ f, fuel = f + 1 := ⟨fuel - 1, by omega⟩
    have hw : waited < maxWait :=
      Nat.lt_of_le_of_lt (Nat.le_add_right _ _) hlt
    have hne : env.counts i ≠ initial + inc := by
      simpa using hbefore 0 (by omega)
    have hmul : (k + 1) * interval = k * interval + interval := Nat.succ_mul k interval
    have hb2 : ∀ j, j < k → env.counts (i + 1 + j) ≠ initial + inc := by
      intro j hj
      have := hbefore (j + 1) (by omega)
      have heq : i + (j + 1) = i + 1 + j := by omega
      rw [heq] at this
      exact this
    have hs2 : env.counts (i + 1 + k) = initial + inc := by
      have heq : i + (k + 1) = i + 1 + k := by omega
      rw [heq] at hsat
      exact hsat
    have hl2 : waited + interval + k * interval < maxWait := by omega
    have hrec := ih fuel (i + 1) (waited + interval) (fetches + 1) hb2 hs2 hl2 (by omega)
    simp only [auditPollAux, if_pos hw, if_neg hne]
    rw [hrec]
    have he1 : i + 1 + k = i + (k + 1) := by omega
    have he3 : fetches + 1 + k + 1 = fetches + (k + 1) + 1 := by omega
    rw [he1, he3]

/-- C2 (counterexample): the count poll loop of
`test_post_resource_increase_count` is not deadline-bounded: on the
observation stream that always reports the baseline count, no amount of
fuel makes the loop return — it loops forever and no `ConvergenceTimeout`
is ever raised. -/
theorem claim2_counterexample : ¬ postPollTerminates (fun _ => 0) 0 := by
  rintro ⟨fuel, h⟩
  rw [postPollAux_isSome_iff] at h
  rcases h with h | ⟨j, _, _, h3⟩
  · omega
  · simp at h3

/-- C2 (amended): the count poll loop of `test_post_resource_increase_count`
returns exactly when some proxy observation reaches the baseline plus one;
on a stream that never reaches it the loop never terminates — it has no
deadline and raises no `ConvergenceTimeout`. -/
theorem claim2_count_poll_terminates_iff (obs : Nat → Nat) (base : Nat) :
    postPollTerminates obs base ↔ ∃ n, obs n = base + 1 := by
  unfold postPollTerminates
  constructor
  · rintro ⟨fuel, h⟩
    rw [postPollAux_isSome_iff] at h
    rcases h with h | ⟨j, _, _, h3⟩
    · omega
    · exact ⟨j, h3⟩
  · rintro ⟨n, hn⟩
    refine ⟨n + 1, ?_⟩
    rw [postPollAux_isSome_iff]
    exact Or.inr ⟨n, by omega, by omega, hn⟩

/-- C3 (counterexample): a non-dict element of the expected audit fixture
does not abort the verification stage — it is silently skipped and the stage
returns normally. -/
theorem claim3_counterexample :
    verifyAuditStage (Json.arrOf [Json.str "x"]) [Json.null] ⟨2024, 1, 1⟩ = .ok () := by
  decide

/-- C3 (amended): a fixture that is not a list fails fatally with the
malformed-fixture error before any comparison, but a list element that is
not a dict is only logged and skipped: processing the pair list continues
as if the pair were absent. -/
theorem claim3_nondict_elements_skipped (d : Json) (evs : List Json) (t : Date)
    (e entry : Json) (rest : List (Json × Json))
    (hd : ∀ xs : JsonArr, d ≠ .arr xs) (he : e.isObj = false) :
    verifyAuditStage d evs t = .error .malformedFixture ∧
    verifyPairs t ((e, entry) :: rest) = verifyPairs t rest := by
  constructor
  · cases d with
    | arr xs => exact absurd rfl (hd xs)
    | null => rfl
    | bool b => rfl
    | num n => rfl
    | str s => rfl
    | obj o => rfl
  · cases e with
    | obj o => simp [Json.isObj] at he
    | null => rfl
    | bool b => rfl
    | num n => rfl
    | str s => rfl
    | arr xs => rfl

/-- C3 (witness): the amended statement at a concrete non-list fixture and
a concrete non-dict element. -/
theorem claim3_witness :
    verifyAuditStage (Json.str "nope") [] ⟨2024, 1, 1⟩ = .error .malformedFixture ∧
    verifyPairs ⟨2024, 1, 1⟩ [(Json.str "bad", Json.null)] = verifyPairs ⟨2024, 1, 1⟩ [] :=
  claim3_nondict_elements_skipped (Json.str "nope") [] ⟨2024, 1, 1⟩ (Json.str "bad")
    Json.null [] (fun xs h => Json.noConfusion h) (by decide)

/-- C7 (counterexample): `get_audit_events` is fetched on every poll
iteration, not only after the count condition holds: on a run whose first
observation misses the condition and whose second meets it, two fetches
happen, the first on an iteration where the condition does not hold. -/
theorem claim7_counterexample :
    auditPollRun ⟨fun i => if i = 0 then 0 else 2, fun _ => [], Json.arrOf [], ⟨2024, 1, 1⟩⟩
        0 2 300 5 = some (.ok (), 2, 2) ∧
      (⟨fun i => if i = 0 then 0 else 2, fun _ => [], Json.arrOf [], ⟨2024, 1, 1⟩⟩ :
        PollEnv).counts 0 ≠ 0 + 2 :=
  ⟨by decide, by decide⟩

/-- C7 (amended): the audit poll loop fetches the newest audit events once
at the top of every iteration, before testing the count condition; when the
condition first holds on iteration `n` (inside the deadline), `n + 1`
fetches have been performed and the verification stage consumes the events
fetched on that satisfying iteration. -/
theorem claim7_fetch_every_iteration (env : PollEnv) (initial inc maxWait interval n : Nat)
    (hι : 0 < interval)
    (hbefore : ∀ j, j < n → env.counts j ≠ initial + inc)
    (hsat : env.counts n = initial + inc)
    (hlt : n * interval < maxWait) :
    auditPollRun env initial inc maxWait interval =
      some (verifyAuditStage env.expectedData (env.events n) env.today, n + 1, n + 1) := by
  unfold auditPollRun
  have h1 : n ≤ n * interval := by
    have := Nat.mul_le_mul (le_refl n) (Nat.succ_le_of_lt hι)
    simpa using this
  have hfuel : n + 1 ≤ maxWait := by omega
  have hb : ∀ j, j < n → env.counts (0 + j) ≠ initial + inc := by
    intro j hj
    simpa using hbefore j hj
  have hs : env.counts (0 + n) = initial + inc := by simpa using hsat
  have hl : (0 : Nat) + n * interval < maxWait := by omega
  have h := auditPollAux_first_sat env initial inc maxWait interval n maxWait 0 0 0 hb hs hl hfuel
  simpa using h

/-- C7 (witness): the amended statement on a concrete run whose condition
first holds on the second iteration. -/
theorem claim7_witness :
    auditPollRun ⟨fun i => if i < 1 then 5 else 7, fun _ => [], Json.arrOf [], ⟨2024, 1, 1⟩⟩
        5 2 40 7 = some (.ok (), 2, 2) := by
  have h := claim7_fetch_every_iteration
    ⟨fun i => if i < 1 then 5 else 7, fun _ => [], Json.arrOf [], ⟨2024, 1, 1⟩⟩ 5 2 40 7 1
    (by omega)
    (fun j hj => by
      have hj0 : j = 0 := by omega
      subst hj0
      decide)
    (by decide) (by omega)
  have he : verifyAuditStage (Json.arrOf []) [] ⟨2024, 1, 1⟩ = .ok () := by decide
  rw [he] at h
  exact h

/-- C8: on observations that never meet the count condition the audit poll
loop checks the elapsed time against the deadline before each sample, runs
one sample per interval, and raises the convergence-timeout error after
exactly the ceiling of deadline divided by interval samples (so 2 samples
for deadline 10 and interval 5, at elapsed times 0 and 5). -/
theorem claim8_poller_timeout_samples (env : PollEnv) (initial inc maxWait interval : Nat)
    (hι : 0 < interval) (hD : 0 < maxWait)
    (hns : ∀ j, env.counts j ≠ initial + inc) :
    auditPollRun env initial inc maxWait interval =
      some (.error .convergenceTimeout, (maxWait + interval - 1) / interval,
            (maxWait + interval - 1) / interval) := by
  unfold auditPollRun
  have hfuel : (maxWait - 0 + interval - 1) / interval ≤ maxWait := by
    rw [Nat.sub_zero]
    exact ceilDiv_le_self maxWait interval hι
  rw [auditPollAux_timeout env initial inc maxWait interval hι hns maxWait 0 0 0 hfuel]
  rw [Nat.sub_zero]
  have hrz : ¬ (maxWait + interval - 1) / interval = 0 := by
    intro h0
    have := (ceilDiv_eq_zero_iff maxWait interval hι).mp h0
    omega
  simp [hrz]

/-- C8 (witness): the theorem instantiated at deadline 10, interval 5 and a
never-satisfying observation stream: exactly 2 samples, then the
convergence-timeout error. -/
theorem claim8_witness :
    auditPollRun ⟨fun _ => 1, fun _ => [], Json.arrOf [], ⟨2024, 1, 1⟩⟩ 0 2 10 5 =
      some (.error .convergenceTimeout, 2, 2) := by
  have h := claim8_poller_timeout_samples
    ⟨fun _ => 1, fun _ => [], Json.arrOf [], ⟨2024, 1, 1⟩⟩ 0 2 10 5
    (by omega) (by omega) (fun j => show (1 : Nat) ≠ 0 + 2 by decide)
  simpa using h

/-- C10: the comparator is not total on JSON-shaped dict inputs: an `agent`
list of length 3 whose index-2 element is not a dict (on either side), and
an `entity` list whose index-1 or index-2 element is not a dict, make
`_assert_audit_events` raise `AttributeError` from `.get` on a non-dict
instead of the field-mismatch assertion; the length guards only cover
too-short lists. -/
theorem claim10_attribute_errors :
    assert_audit_events (Json.objOf [("agent", Json.arrOf [Json.null, Json.null, Json.str "x"])])
        ⟨2024, 1, 1⟩ (Json.objOf []) = .error .attributeError ∧
    assert_audit_events (Json.objOf [("agent", Json.arrOf [Json.null, Json.null, Json.objOf []])])
        ⟨2024, 1, 1⟩
        (Json.objOf [("agent", Json.arrOf [Json.null, Json.null, Json.str "x"])]) =
      .error .attributeError ∧
    assert_audit_events (Json.objOf [("entity", Json.arrOf [Json.null, Json.str "x"])])
        ⟨2024, 1, 1⟩ (Json.objOf []) = .error .attributeError ∧
    assert_audit_events (Json.objOf [("entity", Json.arrOf [Json.null,
        Json.objOf [("what", Json.objOf [("reference", Json.str "Patient/1")])],
        Json.str "x"])])
        ⟨2024, 1, 1⟩
        (Json.objOf [("entity", Json.arrOf [Json.null,
          Json.objOf [("what", Json.objOf [("reference", Json.str "Patient/2")])]])]) =
      .error .attributeError :=
  ⟨by decide, by decide, by decide, by decide⟩

/-- C5: the comparator's outcome depends only on the expected fixture and
the actual event's values at the verification fields present in the
expected object: two actual events agreeing on those lookups (however much
they differ elsewhere) give the same outcome, so fields absent from the
fixture are never read or checked. -/
theorem claim5_unchecked_fields_ignored (e a1 a2 : Json) (t : Date)
    (h : ∀ f ∈ verificationFields, pyContainsKey e f = .ok true →
      pyGet a1 f = pyGet a2 f) :
    assert_audit_events e t a1 = assert_audit_events e t a2 := by
  unfold assert_audit_events
  suffices hgen : ∀ fs : List String,
      (∀ f ∈ fs, pyContainsKey e f = .ok true → pyGet a1 f = pyGet a2 f) →
      checkFieldList e t a1 fs = checkFieldList e t a2 fs by
    exact hgen verificationFields h
  intro fs
  induction fs with
  | nil => intro _; rfl
  | cons f rest ih =>
    intro hfs
    have hf : checkAuditField e t a1 f = checkAuditField e t a2 f := by
      unfold checkAuditField
      cases hc : pyContainsKey e f with
      | error err => rfl
      | ok b =>
        cases b with
        | false => rfl
        | true =>
          have hget := hfs f (List.mem_cons_self _ _) hc
          cases hev : pyGet e f with
          | error err => rfl
          | ok ev => rw [hget]
    simp only [checkFieldList]
    rw [hf]
    cases checkAuditField e t a2 f with
    | error err => rfl
    | ok u =>
      cases u
      exact ih (fun g hg hm => hfs g (List.mem_cons_of_mem _ hg) hm)

/-- C5 (witness): the comparator gives the same outcome on two actual
events that agree on the only expected-present field but differ arbitrarily
on fields absent from the fixture. -/
theorem claim5_witness :
    assert_audit_events (Json.objOf [("action", Json.str "C")]) ⟨2024, 1, 1⟩
        (Json.objOf [("action", Json.str "C"), ("outcome", Json.str "0")]) =
      assert_audit_events (Json.objOf [("action", Json.str "C")]) ⟨2024, 1, 1⟩
        (Json.objOf [("action", Json.str "C"), ("outcome", Json.str "8"),
          ("source", Json.null)]) :=
  claim5_unchecked_fields_ignored _ _ _ _ (by decide)

/-- C6: the comparator scans the expected-present fields in the fixed
document order `action, subtype, outcome, agent, entity, source, recorded,
period`; it returns normally exactly when every per-field check passes, and
it raises error `err` exactly when some field's check raises `err` while
every earlier field's check passes — nothing after the first failing field
is examined. -/
theorem claim6_first_mismatch_in_order (e a : Json) (t : Date) :
    (assert_audit_events e t a = .ok () ↔
      ∀ f ∈ verificationFields, checkAuditField e t a f = .ok ()) ∧
    (∀ err : PyErr, assert_audit_events e t a = .error err ↔
      ∃ i, i < verificationFields.length ∧
        checkAuditField e t a (verificationFields.getD i "") = .error err ∧
        ∀ j, j < i → checkAuditField e t a (verificationFields.getD j "") = .ok ()) :=
  ⟨checkFieldList_ok_iff e t a verificationFields,
   fun err => checkFieldList_error_iff e t a verificationFields err⟩

/-- C6 (witness): the order characterization applied at a concrete pair
where all expected-present field checks pass, so the scan returns
normally. -/
theorem claim6_witness :
    assert_audit_events (Json.objOf [("action", Json.str "C"), ("outcome", Json.str "0")])
        ⟨2024, 1, 1⟩
        (Json.objOf [("action", Json.str "C"), ("outcome", Json.str "0")]) = .ok () :=
  (claim6_first_mismatch_in_order _ _ _).1.mpr (by decide)

/-- C9: the date normalizer is total: it always returns a range-valid
calendar date; every non-string input and every unparsable string (the
empty string included) yields the sentinel minimum date. -/
theorem claim9_parse_date_total :
    (∀ v : Json, isValidDate (parse_date v) = true) ∧
    (∀ v : Json, v.isStr = false → parse_date v = dateMin) ∧
    parse_date (Json.str "") = dateMin ∧
    parse_date (Json.str "not a date") = dateMin := by
  refine ⟨?_, ?_, by decide, by decide⟩
  · intro v
    cases v with
    | str s =>
      simp only [parse_date]
      cases h1 : pyFromIsoFormat s with
      | some d => exact parseAttempt_valid (lexIsoDate s) d h1
      | none =>
        cases h2 : strptimeMicro s with
        | some d => exact parseAttempt_valid (lexStrptimeMicro s) d h2
        | none =>
          cases h3 : strptimeSec s with
          | some d => exact parseAttempt_valid (lexStrptimeSec s) d h3
          | none =>
            cases h4 : strptimeDay s with
            | some d => exact parseAttempt_valid (lexStrptimeDay s) d h4
            | none => exact dateMin_valid
    | null => exact dateMin_valid
    | bool b => exact dateMin_valid
    | num n => exact dateMin_valid
    | arr xs => exact dateMin_valid
    | obj o => exact dateMin_valid
  · intro v hv
    cases v with
    | str s => simp [Json.isStr] at hv
    | null => rfl
    | bool b => rfl
    | num n => rfl
    | arr xs => rfl
    | obj o => rfl

/-- C9 (witness): totality applied at a concrete non-string input. -/
theorem claim9_witness : parse_date (Json.num 5) = dateMin :=
  claim9_parse_date_total.2.1 (Json.num 5) rfl

/-- On dict inputs with `recorded` present in the expected object, the
`recorded` check reduces to comparing the normalized actual value with the
wall-clock date. -/
lemma checkAuditField_recorded_eq (eo ao : JsonObj) (t : Date)
    (hr : eo.hasKey "recorded" = true) :
    checkAuditField (.obj eo) t (.obj ao) "recorded" =
      if extract_date_only ((ao.lookupKey "recorded").getD .null) = t
      then .ok () else .error (.fieldMismatch "recorded") := by
  by_cases hd : extract_date_only ((ao.lookupKey "recorded").getD .null) = t <;>
    simp [checkAuditField, pyContainsKey, hr, pyGet, checkFieldVal, projectField, hd]

/-- On dict inputs with `period` present in the expected object, the
`period` check reduces to comparing the normalized actual `period.end` with
the wall-clock date. -/
lemma checkAuditField_period_eq (eo ao : JsonObj) (t : Date)
    (hp : eo.hasKey "period" = true) :
    checkAuditField (.obj eo) t (.obj ao) "period" =
      if extract_date_only (periodEndOf ((ao.lookupKey "period").getD .null)) = t
      then .ok () else .error (.fieldMismatch "period") := by
  by_cases hd : extract_date_only (periodEndOf ((ao.lookupKey "period").getD .null)) = t <;>
    simp [checkAuditField, pyContainsKey, hp, pyGet, checkFieldVal, projectField, hd]

/-- C1: for an expected fixture object containing `recorded` (resp.
`period`) and any actual event object, the comparator accepts the field
exactly when the actual `recorded` value (resp. the actual `period.end`
value) normalized to calendar-date granularity equals the wall-clock date
at verification time, and raises the field-mismatch error for that field on
any other normalized date. -/
theorem claim1_recorded_period_normalization (eo ao : JsonObj) (t : Date)
    (hr : eo.hasKey "recorded" = true) (hp : eo.hasKey "period" = true) :
    (checkAuditField (.obj eo) t (.obj ao) "recorded" = .ok () ↔
      extract_date_only ((ao.lookupKey "recorded").getD .null) = t) ∧
    (extract_date_only ((ao.lookupKey "recorded").getD .null) ≠ t →
      checkAuditField (.obj eo) t (.obj ao) "recorded" = .error (.fieldMismatch "recorded")) ∧
    (checkAuditField (.obj eo) t (.obj ao) "period" = .ok () ↔
      extract_date_only (periodEndOf ((ao.lookupKey "period").getD .null)) = t) ∧
    (extract_date_only (periodEndOf ((ao.lookupKey "period").getD .null)) ≠ t →
      checkAuditField (.obj eo) t (.obj ao) "period" = .error (.fieldMismatch "period")) := by
  rw [checkAuditField_recorded_eq eo ao t hr, checkAuditField_period_eq eo ao t hp]
  refine ⟨?_, ?_, ?_, ?_⟩
  · split_ifs with h <;> simp [h]
  · intro hne
    rw [if_neg hne]
  · split_ifs with h <;> simp [h]
  · intro hne
    rw [if_neg hne]

/-- C1 (witness): the recorded/period checks accept concrete timestamps
whose calendar date equals the given verification-time date. -/
theorem claim1_witness :
    checkAuditField
        (Json.obj (JsonObj.ofList [("recorded", Json.str "x"), ("period", Json.str "y")]))
        ⟨2024, 1, 5⟩
        (Json.obj (JsonObj.ofList [("recorded", Json.str "2024-01-05"),
          ("period", Json.objOf [("end", Json.str "2024-01-05T10:00:00")])]))
        "recorded" = .ok () ∧
    checkAuditField
        (Json.obj (JsonObj.ofList [("recorded", Json.str "x"), ("period", Json.str "y")]))
        ⟨2024, 1, 5⟩
        (Json.obj (JsonObj.ofList [("recorded", Json.str "2024-01-05"),
          ("period", Json.objOf [("end", Json.str "2024-01-05T10:00:00")])]))
        "period" = .ok () := by
  have h := claim1_recorded_period_normalization
    (JsonObj.ofList [("recorded", Json.str "x"), ("period", Json.str "y")])
    (JsonObj.ofList [("recorded", Json.str "2024-01-05"),
      ("period", Json.objOf [("end", Json.str "2024-01-05T10:00:00")])])
    ⟨2024, 1, 5⟩ (by decide) (by decide)
  exact ⟨h.1.mpr (by decide), h.2.2.1.mpr (by decide)⟩

/-- C4 (counterexample): when expected `entity[2].what` is an object with
no `reference` key, the reference is `None`, the version-marker guard is
skipped, and verification can pass — the claim that a marker-less expected
reference always fails does not hold for an absent reference. -/
theorem claim4_counterexample :
    assert_audit_events
        (Json.objOf [("entity", Json.arrOf [Json.null,
          Json.objOf [("what", Json.objOf [("reference", Json.str "Patient/75270")])],
          Json.objOf [("what", Json.objOf [])]])])
        ⟨2024, 1, 1⟩
        (Json.objOf [("entity", Json.arrOf [Json.null,
          Json.objOf [("what", Json.objOf [("reference", Json.str "Patient/99")])],
          Json.objOf [("what", Json.objOf [])]])]) = .ok () := by
  decide

/-- C4 (amended): whenever the expected `entity[2].what.reference`
projection produces a string that lacks the `_history` marker (which covers
a missing or short entity list and a non-object `what`, both projected to
the empty string, but not a `None` reference from an object without the
key), the comparator cannot return normally, whatever the actual event
holds. -/
theorem claim4_version_marker (e a v : Json) (t : Date) (s : String)
    (hmem : pyContainsKey e "entity" = .ok true)
    (hv : pyGet e "entity" = .ok v)
    (href : entityRefAt v 2 = .ok (.str s))
    (hs : strContainsSub s "_history" = false) :
    assert_audit_events e t a ≠ .ok () := by
  have hmemf : "entity" ∈ verificationFields := by decide
  apply checkFieldList_ne_ok_of_mem e t a verificationFields "entity" hmemf
  unfold checkAuditField
  rw [hmem, hv]
  cases hav : pyGet a "entity" with
  | error err => simp
  | ok av =>
    simp only [checkFieldVal, projectField, if_true]
    cases h1 : entityWhatAt v 1 with
    | error err => simp [checkEntity, h1]
    | ok w1 =>
      cases h2 : entityWhatAt av 1 with
      | error err => simp [checkEntity, h1, h2]
      | ok aw1 =>
        by_cases hcmp : typeHead (refOfWhat w1) ≠ typeHead (refOfWhat aw1)
        · simp [checkEntity, h1, h2, hcmp]
        · cases hw2 : entityWhatAt v 2 with
          | error err =>
            unfold entityRefAt at href
            rw [hw2] at href
            exact absurd href (by simp)
          | ok w2 =>
            have hrw : refOfWhat w2 = .str s := by
              unfold entityRefAt at href
              rw [hw2] at href
              injection href
            cases h4 : entityWhatAt av 2 with
            | error err => simp [checkEntity, h1, h2, hcmp, hw2, h4]
            | ok aw2 =>
              have hhist : historyCheck (refOfWhat w2) = .error .missingVersionId := by
                rw [hrw]
                simp [historyCheck, hs]
              simp [checkEntity, h1, h2, hcmp, hw2, h4, hhist]

/-- C4 (witness): the amended statement at a concrete expected fixture
whose `entity[2].what.reference` is a string with no history segment. -/
theorem claim4_witness :
    assert_audit_events
        (Json.objOf [("entity", Json.arrOf [Json.null,
          Json.objOf [("what", Json.objOf [("reference", Json.str "Patient/1")])],
          Json.objOf [("what", Json.objOf [("reference", Json.str "Observation/5")])]])])
        ⟨2024, 1, 1⟩ (Json.objOf []) ≠ .ok () :=
  claim4_version_marker
    (Json.objOf [("entity", Json.arrOf [Json.null,
      Json.objOf [("what", Json.objOf [("reference", Json.str "Patient/1")])],
      Json.objOf [("what", Json.objOf [("reference", Json.str "Observation/5")])]])])
    (Json.objOf [])
    (Json.arrOf [Json.null,
      Json.objOf [("what", Json.objOf [("reference", Json.str "Patient/1")])],
      Json.objOf [("what", Json.objOf [("reference", Json.str "Observation/5")])]])
    ⟨2024, 1, 1⟩ "Observation/5"
    (by decide) (by decide) (by decide) (by decide)
